import Mathlib

/-!
Verification of the gostream room relay (src/main.go).

The Go program keeps a `Broadcaster` with
`rooms : map[roomName]map[*websocket.Conn]bool` protected by a RWMutex,
and a single HTTP handler `handleWebSocket` that
  1. rejects requests with an empty `room` query parameter,
  2. upgrades the connection,
  3. inserts the connection into the room's set (creating the room if absent),
  4. defers removal of the connection (deleting the room when it empties)
     and, registered before that, closing of the connection,
  5. loops: read a message, and relay it to every other member of the room,
     logging and ignoring individual write errors.

We embed the sequential semantics of this code: Go maps over comparable
keys become association lists with unique keys, the inner
`map[*websocket.Conn]bool` set becomes a duplicate-free list of handles,
and the handler becomes a pure function from its inputs (room name,
upgrade outcome, received messages, per-peer send-failure oracle) to the
final registry plus the list of observable events, in the order the code
performs them (defers run LIFO: the leave-defer, registered second, runs
before `conn.Close()`).
-/

/-- Opaque comparable connection handle (`*websocket.Conn`). -/
abbrev Conn := Nat

/-- Room identifier, a string from the `room` query parameter. -/
abbrev RoomId := String

/-- One websocket message: `messageType` (int) plus payload bytes. -/
structure Message where
  kind : Nat
  payload : List Nat
deriving DecidableEq, Repr

/-- The `rooms` map of `Broadcaster`: room name to set of member handles.
Association list with unique keys; each member list is duplicate-free. -/
abbrev Registry : Type := List (RoomId × List Conn)

/-- `NewBroadcaster()`: the empty rooms map. -/
def emptyRegistry : Registry := []

/-- Go map lookup `b.rooms[room]` as an option (present / absent key). -/
def lookupRoomOpt : Registry → RoomId → Option (List Conn)
  | [], _ => none
  | (r, ms) :: rest, room => if r = room then some ms else lookupRoomOpt rest room

/-- Go's read `b.rooms[room]`: absent key yields the nil map, i.e. no members. -/
def lookupRoom (reg : Registry) (room : RoomId) : List Conn :=
  (lookupRoomOpt reg room).getD []

/-- Overwrite the value stored at an existing key (`b.rooms[room] = ms`). -/
def updateRoom : Registry → RoomId → List Conn → Registry
  | [], _, _ => []
  | (r, ms0) :: rest, room, ms =>
    if r = room then (r, ms) :: updateRoom rest room ms
    else (r, ms0) :: updateRoom rest room ms

/-- Go `delete(b.rooms, room)`: drop the key if present, no-op otherwise. -/
def deleteRoom : Registry → RoomId → Registry
  | [], _ => []
  | (r, ms) :: rest, room =>
    if r = room then deleteRoom rest room else (r, ms) :: deleteRoom rest room

/-- Lines 61-63: `if _, ok := b.rooms[roomName]; !ok { b.rooms[roomName] = make(...) }`. -/
def ensureRoom (reg : Registry) (room : RoomId) : Registry :=
  match lookupRoomOpt reg room with
  | some _ => reg
  | none => reg ++ [(room, [])]

/-- Go set insert `set[c] = true`: a map key appears at most once. -/
def setInsert (ms : List Conn) (c : Conn) : List Conn :=
  if c ∈ ms then ms else ms ++ [c]

/-- Go set delete `delete(set, c)`: remove the key if present. -/
def setRemove : List Conn → Conn → List Conn
  | [], _ => []
  | x :: rest, c => if x = c then setRemove rest c else x :: setRemove rest c

/-- Lines 59-66: create the room if absent, then add the client to it. -/
def join (reg : Registry) (room : RoomId) (c : Conn) : Registry :=
  let reg1 := ensureRoom reg room
  updateRoom reg1 room (setInsert (lookupRoom reg1 room) c)

/-- Lines 71-83 (the deferred cleanup): remove the client from the room,
and delete the room itself when its member set becomes empty. -/
def leave (reg : Registry) (room : RoomId) (c : Conn) : Registry :=
  let ms := setRemove (lookupRoom reg room) c
  if ms.length = 0 then deleteRoom reg room else updateRoom reg room ms

/-- The registry read the fan-out loop iterates over (spec: `snapshotMembers`);
an absent room yields the empty sequence. -/
def snapshotMembers (reg : Registry) (room : RoomId) : List Conn :=
  lookupRoom reg room

/-- One attempted `client.WriteMessage(messageType, message)` during fan-out,
with the payload actually passed and whether the write returned an error. -/
structure SendAttempt where
  target : Conn
  kind : Nat
  payload : List Nat
  failed : Bool
deriving DecidableEq, Repr

/-- Lines 100-111: iterate the room's members; skip the sender; attempt the
write to everyone else; a write error is logged and the loop continues. -/
def fanOut : List Conn → Conn → Message → (Conn → Bool) → List SendAttempt
  | [], _, _, _ => []
  | client :: rest, sender, m, fails =>
    if client ≠ sender then
      { target := client, kind := m.kind, payload := m.payload,
        failed := fails client } :: fanOut rest sender m fails
    else fanOut rest sender m fails

/-- Lines 97-113: one whole fan-out under the read lock. The loop body
contains no write to `b.rooms`, so the registry passes through unchanged. -/
def broadcastStep (reg : Registry) (room : RoomId) (sender : Conn) (m : Message)
    (fails : Conn → Bool) : Registry × List SendAttempt :=
  (reg, fanOut (lookupRoom reg room) sender m fails)

/-- Lines 86-114: the receive loop. `msgs` is the sequence of successful
reads; the read after the last one returns an error and the loop breaks. -/
def runLoop : Registry → RoomId → Conn → List Message → (Conn → Bool) →
    Registry × List (List SendAttempt)
  | reg, _, _, [], _ => (reg, [])
  | reg, room, c, m :: rest, fails =>
    let step := broadcastStep reg room c m fails
    let next := runLoop step.1 room c rest fails
    (next.1, step.2 :: next.2)

/-- Observable actions of one `handleWebSocket` call, in program order. -/
inductive Event where
  | rejectedBadRequest
  | upgradeFailed
  | joined (room : RoomId) (c : Conn)
  | sent (a : SendAttempt)
  | left (room : RoomId) (c : Conn)
  | connClosed (c : Conn)
deriving DecidableEq, Repr

/-- Lines 41-115: the whole handler. Checks the room name before touching
the registry; on upgrade failure returns without touching it; otherwise
joins, runs the receive loop, and on exit the deferred functions run in
LIFO order: the leave-defer (registered at line 71) before `conn.Close()`
(registered at line 56). -/
def handleWebSocket (reg : Registry) (roomName : String) (upgradeOk : Bool)
    (c : Conn) (msgs : List Message) (fails : Conn → Bool) :
    Registry × List Event :=
  if roomName = "" then (reg, [Event.rejectedBadRequest])
  else if upgradeOk = false then (reg, [Event.upgradeFailed])
  else
    (leave (runLoop (join reg roomName c) roomName c msgs fails).1 roomName c,
      Event.joined roomName c ::
        ((runLoop (join reg roomName c) roomName c msgs fails).2.flatten.map Event.sent ++
          [Event.left roomName c, Event.connClosed c]))

/-- A registry-level operation, for reasoning over arbitrary interleavings
of sessions' join and leave calls (each runs under the write lock). -/
inductive RegOp where
  | joinOp (room : RoomId) (c : Conn)
  | leaveOp (room : RoomId) (c : Conn)

/-- Apply one locked mutation. -/
def applyOp (reg : Registry) : RegOp → Registry
  | RegOp.joinOp room c => join reg room c
  | RegOp.leaveOp room c => leave reg room c

/-- Apply a sequence of mutations in order. -/
def applyOps (reg : Registry) (ops : List RegOp) : Registry :=
  ops.foldl applyOp reg

/-- Go-map well-formedness: keys are unique. -/
def NodupKeys (reg : Registry) : Prop := (reg.map Prod.fst).Nodup

/-- Inner Go-map well-formedness: a handle appears at most once per room. -/
def MembersNodup (reg : Registry) : Prop := ∀ p ∈ reg, (Prod.snd p).Nodup

/-- Spec invariant 2: no room entry is present with zero members. -/
def RoomsNonempty (reg : Registry) : Prop := ∀ p ∈ reg, Prod.snd p ≠ []

/-- All registry invariants together. -/
def WF (reg : Registry) : Prop := NodupKeys reg ∧ MembersNodup reg ∧ RoomsNonempty reg

instance : DecidablePred NodupKeys := fun reg => by
  unfold NodupKeys; infer_instance

instance : DecidablePred MembersNodup := fun reg => by
  unfold MembersNodup; infer_instance

instance : DecidablePred RoomsNonempty := fun reg => by
  unfold RoomsNonempty; infer_instance

instance : DecidablePred WF := fun reg => by
  unfold WF; infer_instance

/-- Port resolution in `main` (lines 125-128): `os.Getenv` returns the empty
string when the variable is unset, and the default is `"8080"`. -/
def resolvePort (envPort : String) : String :=
  if envPort = "" then "8080" else envPort

/-- What `main` sets up before serving (lines 117-130). -/
structure ServerSetup where
  wsPath : String
  port : String
  registry : Registry

/-- Lines 117-130: one broadcaster instance with empty rooms, the handler
bound at `/ws`, and the resolved port. -/
def mainSetup (envPort : String) : ServerSetup :=
  { wsPath := "/ws", port := resolvePort envPort, registry := emptyRegistry }

/-- Lines 133-135: `log.Fatal` on a `ListenAndServe` error calls
`os.Exit(1)`; otherwise the server blocks forever and never exits. -/
def mainExit (listenFailed : Bool) : Option Nat :=
  if listenFailed then some 1 else none

/-! ### Helper lemmas about the registry operations -/

theorem lookupRoomOpt_eq_none_iff (reg : Registry) (room : RoomId) :
    lookupRoomOpt reg room = none ↔ ∀ p ∈ reg, Prod.fst p ≠ room := by
  induction reg with
  | nil => simp [lookupRoomOpt]
  | cons p rest ih =>
    obtain ⟨r, ms⟩ := p
    by_cases h : r = room
    · simp [lookupRoomOpt, h]
    · simp [lookupRoomOpt, h, ih]

theorem mem_of_lookupRoomOpt_eq_some {reg : Registry} {room : RoomId} {ms : List Conn}
    (h : lookupRoomOpt reg room = some ms) : (room, ms) ∈ reg := by
  induction reg with
  | nil => simp [lookupRoomOpt] at h
  | cons p rest ih =>
    obtain ⟨r, ms0⟩ := p
    by_cases hr : r = room
    · rw [lookupRoomOpt, if_pos hr] at h
      injection h with h2
      rw [← h2, ← hr]
      exact List.mem_cons_self _ _
    · rw [lookupRoomOpt, if_neg hr] at h
      exact List.mem_cons_of_mem _ (ih h)

theorem updateRoom_keys (reg : Registry) (room : RoomId) (ms : List Conn) :
    (updateRoom reg room ms).map Prod.fst = reg.map Prod.fst := by
  induction reg with
  | nil => rfl
  | cons p rest ih =>
    obtain ⟨r, ms0⟩ := p
    by_cases h : r = room
    · simp [updateRoom, h, ih]
    · simp [updateRoom, h, ih]

theorem mem_updateRoom {reg : Registry} {room : RoomId} {ms : List Conn} {p : RoomId × List Conn}
    (h : p ∈ updateRoom reg room ms) :
    (p ∈ reg ∧ Prod.fst p ≠ room) ∨ p = (room, ms) := by
  induction reg with
  | nil => simp [updateRoom] at h
  | cons q rest ih =>
    obtain ⟨r, ms0⟩ := q
    by_cases hr : r = room
    · rw [updateRoom, if_pos hr] at h
      rcases List.mem_cons.mp h with h1 | h1
      · exact Or.inr (by rw [h1, hr])
      · rcases ih h1 with ⟨hm, hne⟩ | he
        · exact Or.inl ⟨List.mem_cons_of_mem _ hm, hne⟩
        · exact Or.inr he
    · rw [updateRoom, if_neg hr] at h
      rcases List.mem_cons.mp h with h1 | h1
      · refine Or.inl ⟨?_, ?_⟩
        · rw [h1]
          exact List.mem_cons_self _ _
        · rw [h1]
          exact hr
      · rcases ih h1 with ⟨hm, hne⟩ | he
        · exact Or.inl ⟨List.mem_cons_of_mem _ hm, hne⟩
        · exact Or.inr he

theorem lookupRoomOpt_updateRoom_self (reg : Registry) (room : RoomId) (ms : List Conn) :
    lookupRoomOpt (updateRoom reg room ms) room =
      (lookupRoomOpt reg room).map (fun _ => ms) := by
  induction reg with
  | nil => rfl
  | cons p rest ih =>
    obtain ⟨r, ms0⟩ := p
    by_cases h : r = room
    · simp [updateRoom, lookupRoomOpt, h]
    · simp [updateRoom, lookupRoomOpt, h, ih]

theorem lookupRoomOpt_updateRoom_other (reg : Registry) (room r : RoomId) (ms : List Conn)
    (h : r ≠ room) :
    lookupRoomOpt (updateRoom reg room ms) r = lookupRoomOpt reg r := by
  induction reg with
  | nil => rfl
  | cons p rest ih =>
    obtain ⟨r0, ms0⟩ := p
    by_cases h0 : r0 = room
    · have hr0 : r0 ≠ r := fun he => h (he ▸ h0)
      rw [updateRoom, if_pos h0, lookupRoomOpt, lookupRoomOpt, if_neg hr0, if_neg hr0, ih]
    · rw [updateRoom, if_neg h0, lookupRoomOpt, lookupRoomOpt]
      by_cases h1 : r0 = r
      · rw [if_pos h1, if_pos h1]
      · rw [if_neg h1, if_neg h1, ih]

theorem updateRoom_of_lookup_none {reg : Registry} {room : RoomId} (ms : List Conn)
    (h : lookupRoomOpt reg room = none) : updateRoom reg room ms = reg := by
  induction reg with
  | nil => rfl
  | cons p rest ih =>
    obtain ⟨r, ms0⟩ := p
    by_cases hr : r = room
    · simp [lookupRoomOpt, hr] at h
    · simp only [lookupRoomOpt, if_neg hr] at h
      simp [updateRoom, hr, ih h]

theorem updateRoom_self_eq {reg : Registry} {room : RoomId} {ms : List Conn}
    (hkeys : NodupKeys reg) (h : lookupRoomOpt reg room = some ms) :
    updateRoom reg room ms = reg := by
  induction reg with
  | nil => rfl
  | cons p rest ih =>
    obtain ⟨r, ms0⟩ := p
    simp only [NodupKeys, List.map_cons, List.nodup_cons] at hkeys
    by_cases hr : r = room
    · rw [lookupRoomOpt, if_pos hr] at h
      injection h with h2
      have hnone : lookupRoomOpt rest room = none := by
        rw [lookupRoomOpt_eq_none_iff]
        intro q hq hfst
        have hmem : Prod.fst q ∈ List.map Prod.fst rest := List.mem_map_of_mem Prod.fst hq
        rw [hfst, ← hr] at hmem
        exact hkeys.1 hmem
      rw [updateRoom, if_pos hr, ← h2, updateRoom_of_lookup_none _ hnone]
    · rw [lookupRoomOpt, if_neg hr] at h
      rw [updateRoom, if_neg hr, ih hkeys.2 h]

theorem mem_deleteRoom {reg : Registry} {room : RoomId} {p : RoomId × List Conn}
    (h : p ∈ deleteRoom reg room) : p ∈ reg ∧ Prod.fst p ≠ room := by
  induction reg with
  | nil => simp [deleteRoom] at h
  | cons q rest ih =>
    obtain ⟨r, ms0⟩ := q
    by_cases hr : r = room
    · simp only [deleteRoom, if_pos hr] at h
      exact ⟨List.mem_cons_of_mem _ (ih h).1, (ih h).2⟩
    · simp only [deleteRoom, if_neg hr, List.mem_cons] at h
      rcases h with h | h
    
      · subst h
        exact ⟨List.mem_cons_self _ _, hr⟩
      · exact ⟨List.mem_cons_of_mem _ (ih h).1, (ih h).2⟩

theorem lookupRoomOpt_deleteRoom_self (reg : Registry) (room : RoomId) :
    lookupRoomOpt (deleteRoom reg room) room = none := by
  rw [lookupRoomOpt_eq_none_iff]
  intro p hp
  exact (mem_deleteRoom hp).2

theorem lookupRoomOpt_deleteRoom_other (reg : Registry) (room r : RoomId) (h : r ≠ room) :
    lookupRoomOpt (deleteRoom reg room) r = lookupRoomOpt reg r := by
  induction reg with
  | nil => rfl
  | cons p rest ih =>
    obtain ⟨r0, ms0⟩ := p
    by_cases h0 : r0 = room
    · have hr0 : r0 ≠ r := fun he => h (he ▸ h0)
      rw [deleteRoom, if_pos h0, lookupRoomOpt, if_neg hr0, ih]
    · rw [deleteRoom, if_neg h0, lookupRoomOpt, lookupRoomOpt]
      by_cases h1 : r0 = r
      · rw [if_pos h1, if_pos h1]
      · rw [if_neg h1, if_neg h1, ih]

theorem deleteRoom_of_lookup_none {reg : Registry} {room : RoomId}
    (h : lookupRoomOpt reg room = none) : deleteRoom reg room = reg := by
  induction reg with
  | nil => rfl
  | cons p rest ih =>
    obtain ⟨r, ms0⟩ := p
    by_cases hr : r = room
    · simp [lookupRoomOpt, hr] at h
    · simp only [lookupRoomOpt, if_neg hr] at h
      simp [deleteRoom, hr, ih h]

theorem mem_keys_deleteRoom {reg : Registry} {room r : RoomId}
    (h : r ∈ (deleteRoom reg room).map Prod.fst) : r ∈ reg.map Prod.fst := by
  simp only [List.mem_map] at h ⊢
  obtain ⟨p, hp, hfst⟩ := h
  exact ⟨p, (mem_deleteRoom hp).1, hfst⟩

theorem deleteRoom_NodupKeys {reg : Registry} {room : RoomId} (h : NodupKeys reg) :
    NodupKeys (deleteRoom reg room) := by
  induction reg with
  | nil => exact h
  | cons p rest ih =>
    obtain ⟨r, ms0⟩ := p
    simp only [NodupKeys, List.map_cons, List.nodup_cons] at h
    by_cases hr : r = room
    · simp only [deleteRoom, if_pos hr]
      exact ih h.2
    · simp only [deleteRoom, if_neg hr, NodupKeys, List.map_cons, List.nodup_cons]
      exact ⟨fun hm => h.1 (mem_keys_deleteRoom hm), ih h.2⟩

theorem mem_setInsert_self (ms : List Conn) (c : Conn) : c ∈ setInsert ms c := by
  unfold setInsert
  by_cases h : c ∈ ms
  · rw [if_pos h]
    exact h
  · rw [if_neg h]
    exact List.mem_append_right _ (List.mem_singleton_self c)

theorem mem_setInsert_iff (ms : List Conn) (c x : Conn) :
    x ∈ setInsert ms c ↔ x ∈ ms ∨ x = c := by
  unfold setInsert
  by_cases h : c ∈ ms
  · rw [if_pos h]
    constructor
    · exact Or.inl
    · rintro (hx | hx)
      · exact hx
      · exact hx ▸ h
  · rw [if_neg h]
    simp [List.mem_append]

theorem setInsert_ne_nil (ms : List Conn) (c : Conn) : setInsert ms c ≠ [] := by
  intro h
  exact List.not_mem_nil c (h ▸ mem_setInsert_self ms c)

theorem setInsert_nodup {ms : List Conn} (hnd : ms.Nodup) (c : Conn) :
    (setInsert ms c).Nodup := by
  unfold setInsert
  by_cases h : c ∈ ms
  · rw [if_pos h]
    exact hnd
  · rw [if_neg h]
    rw [List.nodup_append]
    refine ⟨hnd, List.nodup_singleton c, ?_⟩
    intro x hx hxc
    rw [List.mem_singleton] at hxc
    exact h (hxc ▸ hx)

theorem setInsert_of_mem {ms : List Conn} {c : Conn} (h : c ∈ ms) : setInsert ms c = ms := by
  unfold setInsert
  rw [if_pos h]

theorem mem_setRemove_iff (ms : List Conn) (c x : Conn) :
    x ∈ setRemove ms c ↔ x ∈ ms ∧ x ≠ c := by
  induction ms with
  | nil => simp [setRemove]
  | cons y rest ih =>
    by_cases hy : y = c
    · rw [setRemove, if_pos hy, ih]
      subst hy
      constructor
      · exact fun ⟨hm, hne⟩ => ⟨List.mem_cons_of_mem _ hm, hne⟩
      · rintro ⟨hm, hne⟩
        rcases List.mem_cons.mp hm with h1 | h1
        · exact absurd h1 hne
        · exact ⟨h1, hne⟩
    · rw [setRemove, if_neg hy]
      constructor
      · intro hx
        rcases List.mem_cons.mp hx with h1 | h1
        · exact ⟨h1 ▸ List.mem_cons_self _ _, h1 ▸ hy⟩
        · exact ⟨List.mem_cons_of_mem _ (ih.mp h1).1, (ih.mp h1).2⟩
      · rintro ⟨hm, hne⟩
        rcases List.mem_cons.mp hm with h1 | h1
        · exact h1 ▸ List.mem_cons_self _ _
        · exact List.mem_cons_of_mem _ (ih.mpr ⟨h1, hne⟩)

theorem not_mem_setRemove (ms : List Conn) (c : Conn) : c ∉ setRemove ms c := by
  intro h
  exact ((mem_setRemove_iff ms c c).mp h).2 rfl

theorem setRemove_of_not_mem {ms : List Conn} {c : Conn} (h : c ∉ ms) :
    setRemove ms c = ms := by
  induction ms with
  | nil => rfl
  | cons y rest ih =>
    have hy : y ≠ c := fun he => h (he ▸ List.mem_cons_self _ _)
    rw [setRemove, if_neg hy, ih (fun hm => h (List.mem_cons_of_mem _ hm))]

theorem setRemove_nodup {ms : List Conn} (hnd : ms.Nodup) (c : Conn) :
    (setRemove ms c).Nodup := by
  induction ms with
  | nil => exact hnd
  | cons y rest ih =>
    rw [List.nodup_cons] at hnd
    by_cases hy : y = c
    · rw [setRemove, if_pos hy]
      exact ih hnd.2
    · rw [setRemove, if_neg hy, List.nodup_cons]
      exact ⟨fun hm => hnd.1 ((mem_setRemove_iff rest c y).mp hm).1, ih hnd.2⟩

theorem lookupRoomOpt_append_none {reg1 reg2 : Registry} {room : RoomId}
    (h : lookupRoomOpt reg1 room = none) :
    lookupRoomOpt (reg1 ++ reg2) room = lookupRoomOpt reg2 room := by
  induction reg1 with
  | nil => rfl
  | cons p rest ih =>
    obtain ⟨r, ms⟩ := p
    by_cases hr : r = room
    · rw [lookupRoomOpt, if_pos hr] at h
      exact absurd h (by simp)
    · rw [lookupRoomOpt, if_neg hr] at h
      rw [List.cons_append, lookupRoomOpt, if_neg hr, ih h]

theorem lookupRoomOpt_ensureRoom_self (reg : Registry) (room : RoomId) :
    lookupRoomOpt (ensureRoom reg room) room = some (lookupRoom reg room) := by
  unfold ensureRoom lookupRoom
  cases h : lookupRoomOpt reg room with
  | some ms =>
    rw [h]
    rfl
  | none =>
    rw [lookupRoomOpt_append_none h, lookupRoomOpt, if_pos rfl]
    rfl

theorem mem_ensureRoom {reg : Registry} {room : RoomId} {p : RoomId × List Conn}
    (h : p ∈ ensureRoom reg room) : p ∈ reg ∨ p = (room, []) := by
  unfold ensureRoom at h
  cases hl : lookupRoomOpt reg room with
  | some ms =>
    rw [hl] at h
    exact Or.inl h
  | none =>
    rw [hl] at h
    rcases List.mem_append.mp h with h1 | h1
    · exact Or.inl h1
    · exact Or.inr (List.mem_singleton.mp h1)

theorem ensureRoom_NodupKeys {reg : Registry} {room : RoomId} (h : NodupKeys reg) :
    NodupKeys (ensureRoom reg room) := by
  unfold ensureRoom
  cases hl : lookupRoomOpt reg room with
  | some ms => exact h
  | none =>
    unfold NodupKeys
    rw [List.map_append, List.nodup_append]
    refine ⟨h, List.nodup_singleton room, ?_⟩
    intro r hr hmem
    rw [List.map_singleton, List.mem_singleton] at hmem
    subst hmem
    rw [lookupRoomOpt_eq_none_iff] at hl
    simp only [List.mem_map] at hr
    obtain ⟨q, hq, hfst⟩ := hr
    exact hl q hq hfst

theorem lookupRoom_ensureRoom_self (reg : Registry) (room : RoomId) :
    lookupRoom (ensureRoom reg room) room = lookupRoom reg room := by
  unfold lookupRoom
  rw [lookupRoomOpt_ensureRoom_self]
  rfl

theorem lookupRoomOpt_append_singleton_other (reg : Registry) (room r : RoomId)
    (ms : List Conn) (h : r ≠ room) :
    lookupRoomOpt (reg ++ [(room, ms)]) r = lookupRoomOpt reg r := by
  induction reg with
  | nil =>
    rw [List.nil_append]
    show (if room = r then some ms else lookupRoomOpt [] r) = lookupRoomOpt [] r
    rw [if_neg (fun he => h he.symm)]
  | cons p rest ih =>
    obtain ⟨r0, ms0⟩ := p
    by_cases h0 : r0 = r
    · rw [List.cons_append, lookupRoomOpt, if_pos h0, lookupRoomOpt, if_pos h0]
    · rw [List.cons_append, lookupRoomOpt, if_neg h0, lookupRoomOpt, if_neg h0, ih]

theorem lookupRoomOpt_ensureRoom_other (reg : Registry) (room r : RoomId) (h : r ≠ room) :
    lookupRoomOpt (ensureRoom reg room) r = lookupRoomOpt reg r := by
  unfold ensureRoom
  cases hl : lookupRoomOpt reg room with
  | some ms => rfl
  | none => rw [lookupRoomOpt_append_singleton_other reg room r [] h]

theorem lookupRoomOpt_join_self (reg : Registry) (room : RoomId) (c : Conn) :
    lookupRoomOpt (join reg room c) room = some (setInsert (lookupRoom reg room) c) := by
  unfold join
  rw [lookupRoomOpt_updateRoom_self, lookupRoomOpt_ensureRoom_self,
    lookupRoom_ensureRoom_self]
  rfl

theorem lookupRoom_join_self (reg : Registry) (room : RoomId) (c : Conn) :
    lookupRoom (join reg room c) room = setInsert (lookupRoom reg room) c := by
  unfold lookupRoom
  rw [lookupRoomOpt_join_self]
  rfl

theorem lookupRoomOpt_join_other (reg : Registry) (room r : RoomId) (c : Conn) (h : r ≠ room) :
    lookupRoomOpt (join reg room c) r = lookupRoomOpt reg r := by
  unfold join
  rw [lookupRoomOpt_updateRoom_other _ _ _ _ h, lookupRoomOpt_ensureRoom_other _ _ _ h]

theorem mem_join {reg : Registry} {room : RoomId} {c : Conn} {p : RoomId × List Conn}
    (h : p ∈ join reg room c) :
    (p ∈ reg ∧ Prod.fst p ≠ room) ∨ p = (room, setInsert (lookupRoom reg room) c) := by
  unfold join at h
  rcases mem_updateRoom h with ⟨hm, hne⟩ | he
  · rcases mem_ensureRoom hm with h1 | h1
    · exact Or.inl ⟨h1, hne⟩
    · exact absurd (by rw [h1]) hne
  · rw [lookupRoom_ensureRoom_self] at he
    exact Or.inr he

theorem lookupRoom_nodup {reg : Registry} (hm : MembersNodup reg) (room : RoomId) :
    (lookupRoom reg room).Nodup := by
  unfold lookupRoom
  cases hl : lookupRoomOpt reg room with
  | none => exact List.nodup_nil
  | some ms => exact hm (room, ms) (mem_of_lookupRoomOpt_eq_some hl)

theorem updateRoom_NodupKeys {reg : Registry} {room : RoomId} {ms : List Conn}
    (h : NodupKeys reg) : NodupKeys (updateRoom reg room ms) := by
  unfold NodupKeys
  rw [updateRoom_keys]
  exact h

theorem join_NodupKeys {reg : Registry} (h : NodupKeys reg) (room : RoomId) (c : Conn) :
    NodupKeys (join reg room c) :=
  updateRoom_NodupKeys (ensureRoom_NodupKeys h)

theorem join_MembersNodup {reg : Registry} (hk : MembersNodup reg) (room : RoomId) (c : Conn) :
    MembersNodup (join reg room c) := by
  intro p hp
  rcases mem_join hp with ⟨hm, _⟩ | he
  · exact hk p hm
  · rw [he]
    exact setInsert_nodup (lookupRoom_nodup hk room) c

theorem join_RoomsNonempty {reg : Registry} (hk : RoomsNonempty reg) (room : RoomId) (c : Conn) :
    RoomsNonempty (join reg room c) := by
  intro p hp
  rcases mem_join hp with ⟨hm, _⟩ | he
  · exact hk p hm
  · rw [he]
    exact setInsert_ne_nil _ _

theorem mem_leave {reg : Registry} {room : RoomId} {c : Conn} {p : RoomId × List Conn}
    (h : p ∈ leave reg room c) :
    (p ∈ reg ∧ Prod.fst p ≠ room) ∨
      (p = (room, setRemove (lookupRoom reg room) c) ∧
        setRemove (lookupRoom reg room) c ≠ []) := by
  unfold leave at h
  by_cases hlen : (setRemove (lookupRoom reg room) c).length = 0
  · rw [if_pos hlen] at h
    exact Or.inl (mem_deleteRoom h)
  · rw [if_neg hlen] at h
    rcases mem_updateRoom h with ⟨hm, hne⟩ | he
    · exact Or.inl ⟨hm, hne⟩
    · exact Or.inr ⟨he, fun hnil => hlen (by rw [hnil]; rfl)⟩

theorem leave_NodupKeys {reg : Registry} (h : NodupKeys reg) (room : RoomId) (c : Conn) :
    NodupKeys (leave reg room c) := by
  unfold leave
  by_cases hlen : (setRemove (lookupRoom reg room) c).length = 0
  · rw [if_pos hlen]
    exact deleteRoom_NodupKeys h
  · rw [if_neg hlen]
    exact updateRoom_NodupKeys h

theorem leave_MembersNodup {reg : Registry} (hk : MembersNodup reg) (room : RoomId) (c : Conn) :
    MembersNodup (leave reg room c) := by
  intro p hp
  rcases mem_leave hp with ⟨hm, _⟩ | ⟨he, _⟩
  · exact hk p hm
  · rw [he]
    exact setRemove_nodup (lookupRoom_nodup hk room) c

theorem leave_RoomsNonempty {reg : Registry} (hk : RoomsNonempty reg) (room : RoomId) (c : Conn) :
    RoomsNonempty (leave reg room c) := by
  intro p hp
  rcases mem_leave hp with ⟨hm, _⟩ | ⟨he, hne⟩
  · exact hk p hm
  · rw [he]
    exact hne

theorem join_WF {reg : Registry} (h : WF reg) (room : RoomId) (c : Conn) :
    WF (join reg room c) :=
  ⟨join_NodupKeys h.1 room c, join_MembersNodup h.2.1 room c,
    join_RoomsNonempty h.2.2 room c⟩

theorem leave_WF {reg : Registry} (h : WF reg) (room : RoomId) (c : Conn) :
    WF (leave reg room c) :=
  ⟨leave_NodupKeys h.1 room c, leave_MembersNodup h.2.1 room c,
    leave_RoomsNonempty h.2.2 room c⟩

theorem WF_empty : WF emptyRegistry := by
  refine ⟨List.nodup_nil, ?_, ?_⟩ <;> intro p hp <;> exact absurd hp (List.not_mem_nil p)

theorem applyOp_WF {reg : Registry} (h : WF reg) (op : RegOp) : WF (applyOp reg op) := by
  cases op with
  | joinOp room c => exact join_WF h room c
  | leaveOp room c => exact leave_WF h room c

theorem applyOps_WF {reg : Registry} (h : WF reg) (ops : List RegOp) :
    WF (applyOps reg ops) := by
  induction ops generalizing reg with
  | nil => exact h
  | cons op rest ih => exact ih (applyOp_WF h op)

theorem present_iff_nonempty {reg : Registry} (h : RoomsNonempty reg) (room : RoomId) :
    (lookupRoomOpt reg room).isSome = true ↔ lookupRoom reg room ≠ [] := by
  unfold lookupRoom
  cases hl : lookupRoomOpt reg room with
  | none => simp
  | some ms =>
    simp only [Option.isSome_some, Option.getD_some, true_iff]
    exact h (room, ms) (mem_of_lookupRoomOpt_eq_some hl)

theorem ensureRoom_eq_self {reg : Registry} {room : RoomId}
    (h : (lookupRoomOpt reg room).isSome = true) : ensureRoom reg room = reg := by
  unfold ensureRoom
  cases hl : lookupRoomOpt reg room with
  | some ms => rfl
  | none =>
    rw [hl] at h
    simp at h

theorem leave_eq_self {reg : Registry} {room : RoomId} {c : Conn}
    (hkeys : NodupKeys reg) (hne : RoomsNonempty reg) (hnm : c ∉ lookupRoom reg room) :
    leave reg room c = reg := by
  unfold leave
  cases hl : lookupRoomOpt reg room with
  | none =>
    have h0 : lookupRoom reg room = [] := by
      unfold lookupRoom
      rw [hl]
      rfl
    rw [h0, if_pos (by rfl)]
    exact deleteRoom_of_lookup_none hl
  | some ms =>
    have h0 : lookupRoom reg room = ms := by
      unfold lookupRoom
      rw [hl]
      rfl
    rw [h0] at hnm ⊢
    rw [setRemove_of_not_mem hnm]
    have hmsne : ms ≠ [] := hne (room, ms) (mem_of_lookupRoomOpt_eq_some hl)
    rw [if_neg (fun hz => hmsne (List.length_eq_zero.mp hz))]
    exact updateRoom_self_eq hkeys hl

theorem not_mem_lookupRoom_leave (reg : Registry) (room : RoomId) (c : Conn) :
    c ∉ lookupRoom (leave reg room c) room := by
  unfold leave
  by_cases hlen : (setRemove (lookupRoom reg room) c).length = 0
  · rw [if_pos hlen]
    unfold lookupRoom
    rw [lookupRoomOpt_deleteRoom_self]
    exact List.not_mem_nil c
  · rw [if_neg hlen]
    unfold lookupRoom
    rw [lookupRoomOpt_updateRoom_self]
    cases hl : lookupRoomOpt reg room with
    | none =>
      exfalso
      apply hlen
      have h0 : lookupRoom reg room = [] := by
        unfold lookupRoom
        rw [hl]
        rfl
      rw [h0]
      rfl
    | some ms =>
      intro hmem
      exact not_mem_setRemove ms c hmem

theorem fanOut_fields (ms : List Conn) (s : Conn) (m : Message) (fails : Conn → Bool) :
    ∀ a ∈ fanOut ms s m fails,
      SendAttempt.kind a = m.kind ∧ SendAttempt.payload a = m.payload ∧
        SendAttempt.target a ≠ s := by
  induction ms with
  | nil =>
    intro a ha
    exact absurd ha (List.not_mem_nil a)
  | cons client rest ih =>
    intro a ha
    by_cases hc : client ≠ s
    · rw [fanOut, if_pos hc] at ha
      rcases List.mem_cons.mp ha with h1 | h1
      · subst h1
        exact ⟨rfl, rfl, hc⟩
      · exact ih a h1
    · rw [fanOut, if_neg hc] at ha
      exact ih a ha

theorem fanOut_targets (ms : List Conn) (s : Conn) (m : Message) (fails : Conn → Bool) :
    (fanOut ms s m fails).map SendAttempt.target = ms.filter (fun x => x != s) := by
  induction ms with
  | nil => rfl
  | cons client rest ih =>
    by_cases hc : client ≠ s
    · rw [fanOut, if_pos hc, List.map_cons, ih]
      simp [List.filter_cons, hc]
    · rw [fanOut, if_neg hc]
      rw [not_not] at hc
      subst hc
      rw [ih]
      simp [List.filter_cons]

theorem mem_fanOut_target_iff (ms : List Conn) (s : Conn) (m : Message)
    (fails : Conn → Bool) (p : Conn) :
    p ∈ (fanOut ms s m fails).map SendAttempt.target ↔ p ∈ ms ∧ p ≠ s := by
  rw [fanOut_targets]
  simp [List.mem_filter]

theorem fanOut_targets_nodup {ms : List Conn} (hnd : ms.Nodup) (s : Conn) (m : Message)
    (fails : Conn → Bool) :
    ((fanOut ms s m fails).map SendAttempt.target).Nodup := by
  rw [fanOut_targets]
  exact hnd.filter _

theorem runLoop_fst (reg : Registry) (room : RoomId) (c : Conn) (msgs : List Message)
    (fails : Conn → Bool) : (runLoop reg room c msgs fails).1 = reg := by
  induction msgs generalizing reg with
  | nil => rfl
  | cons m rest ih =>
    show (runLoop reg room c rest fails).1 = reg
    exact ih reg

theorem runLoop_snd_length (reg : Registry) (room : RoomId) (c : Conn) (msgs : List Message)
    (fails : Conn → Bool) : (runLoop reg room c msgs fails).2.length = msgs.length := by
  induction msgs generalizing reg with
  | nil => rfl
  | cons m rest ih =>
    show ((broadcastStep reg room c m fails).2 ::
      (runLoop reg room c rest fails).2).length = rest.length + 1
    rw [List.length_cons, ih]

theorem handleWebSocket_active (reg : Registry) (room : RoomId) (c : Conn)
    (msgs : List Message) (fails : Conn → Bool) (h : room ≠ "") :
    handleWebSocket reg room true c msgs fails =
      (leave (join reg room c) room c,
        Event.joined room c ::
          ((runLoop (join reg room c) room c msgs fails).2.flatten.map Event.sent ++
            [Event.left room c, Event.connClosed c])) := by
  unfold handleWebSocket
  rw [if_neg h, if_neg (by simp), runLoop_fst]

theorem count_left_in_sent_map (l : List SendAttempt) (room : RoomId) (c : Conn) :
    ((l.map Event.sent).count (Event.left room c)) = 0 := by
  rw [List.count_eq_zero]
  intro hmem
  rcases List.mem_map.mp hmem with ⟨a, _, ha⟩
  exact Event.noConfusion ha

theorem count_left_in_sent_flatten (ll : List (List SendAttempt)) (room : RoomId) (c : Conn) :
    ((ll.map (List.map Event.sent)).flatten).count (Event.left room c) = 0 := by
  rw [List.count_eq_zero]
  intro hmem
  rcases List.mem_flatten.mp hmem with ⟨l, hl, hel⟩
  rcases List.mem_map.mp hl with ⟨l0, _, hl0⟩
  subst hl0
  rcases List.mem_map.mp hel with ⟨a, _, ha⟩
  exact Event.noConfusion ha

/-! ### The claims -/

/-- C1: for every broadcast of a message `m` received from sender `s` in room `R`,
the relay attempts a send to exactly the members of `R` other than `s`, each
attempt carrying the identical message kind and payload bytes, each non-sender
member exactly once, and never to `s` itself. -/
theorem claim1_broadcast_exact (reg : Registry) (room : RoomId) (s : Conn) (m : Message)
    (fails : Conn → Bool) (hs : s ∈ snapshotMembers reg room)
    (hnd : (snapshotMembers reg room).Nodup) :
    (∀ a ∈ (broadcastStep reg room s m fails).2,
        SendAttempt.kind a = m.kind ∧ SendAttempt.payload a = m.payload ∧
          SendAttempt.target a ≠ s)
    ∧ (∀ p : Conn, p ∈ (broadcastStep reg room s m fails).2.map SendAttempt.target ↔
        (p ∈ snapshotMembers reg room ∧ p ≠ s))
    ∧ ((broadcastStep reg room s m fails).2.map SendAttempt.target).Nodup := by
  refine ⟨fanOut_fields (lookupRoom reg room) s m fails, ?_, fanOut_targets_nodup hnd s m fails⟩
  intro p
  exact mem_fanOut_target_iff (lookupRoom reg room) s m fails p

/-- Witness for C1: concrete three-member room, sender 0, peers 1 and 2. -/
theorem claim1_broadcast_exact_witness :
    (0 : Conn) ∈ snapshotMembers [("lobby", [0, 1, 2])] "lobby" ∧
    (snapshotMembers [("lobby", [0, 1, 2])] "lobby").Nodup ∧
    ((broadcastStep [("lobby", [0, 1, 2])] "lobby" 0 ⟨1, [104, 105]⟩ (fun _ => false)).2.map
        SendAttempt.target).Nodup :=
  ⟨by decide, by decide,
    (claim1_broadcast_exact [("lobby", [0, 1, 2])] "lobby" 0 ⟨1, [104, 105]⟩ (fun _ => false)
      (by decide) (by decide)).2.2⟩

/-- C2: starting from the fresh registry, after any sequence of join and leave
operations a room identifier is present in the mapping iff that room has at
least one member; a leave that empties a room deletes the room entry in the
same operation. -/
theorem claim2_room_present_iff_member (ops : List RegOp) (room : RoomId) :
    (lookupRoomOpt (applyOps emptyRegistry ops) room).isSome = true ↔
      lookupRoom (applyOps emptyRegistry ops) room ≠ [] :=
  present_iff_nonempty (applyOps_WF WF_empty ops).2.2 room

/-- C3: a connection request with an empty room identifier is rejected with a
client error before any registry interaction: the registry is returned exactly
unchanged and the only observable event is the rejection. -/
theorem claim3_empty_room_rejected (reg : Registry) (upgradeOk : Bool) (c : Conn)
    (msgs : List Message) (fails : Conn → Bool) :
    handleWebSocket reg "" upgradeOk c msgs fails = (reg, [Event.rejectedBadRequest]) := by
  unfold handleWebSocket
  rw [if_pos rfl]

/-- C4: every session that entered the Active state performs cleanup on exit of
the receive loop: exactly one leave of its room, the connection handle released
only afterwards (the leave-defer runs before `conn.Close()`), and the departed
handle is absent from subsequent membership snapshots of that room. -/
theorem claim4_cleanup_guaranteed (reg : Registry) (room : RoomId) (c : Conn)
    (msgs : List Message) (fails : Conn → Bool) (h : room ≠ "") :
    ((handleWebSocket reg room true c msgs fails).2.count (Event.left room c) = 1)
    ∧ (∃ sendEvs : List Event,
        (handleWebSocket reg room true c msgs fails).2 =
          Event.joined room c :: (sendEvs ++ [Event.left room c, Event.connClosed c])
        ∧ ∀ e ∈ sendEvs, ∃ a, e = Event.sent a)
    ∧ c ∉ snapshotMembers (handleWebSocket reg room true c msgs fails).1 room := by
  rw [handleWebSocket_active reg room c msgs fails h]
  refine ⟨?_, ?_, ?_⟩
  · simp [List.count_cons, List.count_append, List.count_nil,
      count_left_in_sent_map, count_left_in_sent_flatten]
  · refine ⟨(runLoop (join reg room c) room c msgs fails).2.flatten.map Event.sent, rfl, ?_⟩
    intro e he
    rcases List.mem_map.mp he with ⟨a, _, ha⟩
    exact ⟨a, ha.symm⟩
  · exact not_mem_lookupRoom_leave (join reg room c) room c

/-- Witness for C4: client 0 in room "lobby" relays one message and exits;
exactly one leave event is recorded. -/
theorem claim4_cleanup_guaranteed_witness :
    ("lobby" : String) ≠ "" ∧
    (handleWebSocket [] "lobby" true 0 [⟨1, [104]⟩] (fun _ => false)).2.count
      (Event.left "lobby" 0) = 1 :=
  ⟨by decide,
    (claim4_cleanup_guaranteed [] "lobby" 0 [⟨1, [104]⟩] (fun _ => false) (by decide)).1⟩

/-- C5: a send failure to one peer is ignored by the broadcaster: the attempted
targets are identical to those of a failure-free fan-out (every remaining
non-sender member is still attempted), the registry is untouched so the failed
peer stays a member, and the sender's receive loop still processes every
message. -/
theorem claim5_send_failure_isolated (reg : Registry) (room : RoomId) (s p : Conn)
    (m : Message) (fails : Conn → Bool) (msgs : List Message)
    (hp : p ∈ snapshotMembers reg room) (hfail : fails p = true) :
    ((broadcastStep reg room s m fails).2.map SendAttempt.target =
      (broadcastStep reg room s m (fun _ => false)).2.map SendAttempt.target)
    ∧ (broadcastStep reg room s m fails).1 = reg
    ∧ p ∈ snapshotMembers (broadcastStep reg room s m fails).1 room
    ∧ (p ≠ s → p ∈ (broadcastStep reg room s m fails).2.map SendAttempt.target)
    ∧ (runLoop reg room s msgs fails).2.length = msgs.length := by
  refine ⟨?_, rfl, hp, ?_, runLoop_snd_length reg room s msgs fails⟩
  · show (fanOut (lookupRoom reg room) s m fails).map SendAttempt.target =
      (fanOut (lookupRoom reg room) s m (fun _ => false)).map SendAttempt.target
    rw [fanOut_targets, fanOut_targets]
  · intro hps
    exact (mem_fanOut_target_iff (lookupRoom reg room) s m fails p).mpr ⟨hp, hps⟩

/-- Witness for C5: room of 0, 1, 2; sender 0; the send to peer 1 fails. -/
theorem claim5_send_failure_isolated_witness :
    (1 : Conn) ∈ snapshotMembers [("lobby", [0, 1, 2])] "lobby" ∧
    ((fun x => x == 1 : Conn → Bool) 1 = true) ∧
    ((broadcastStep [("lobby", [0, 1, 2])] "lobby" 0 ⟨1, [104]⟩ (fun x => x == 1)).2.map
        SendAttempt.target =
      (broadcastStep [("lobby", [0, 1, 2])] "lobby" 0 ⟨1, [104]⟩ (fun _ => false)).2.map
        SendAttempt.target) :=
  ⟨by decide, by decide,
    (claim5_send_failure_isolated [("lobby", [0, 1, 2])] "lobby" 0 1 ⟨1, [104]⟩
      (fun x => x == 1) [⟨1, [104]⟩] (by decide) (by decide)).1⟩

/-- C7: on a well-formed registry, leaving a room of which the handle is not a
member (including the room being entirely absent) is a no-op: the mapping is
returned exactly unchanged. -/
theorem claim7_leave_noop (reg : Registry) (room : RoomId) (c : Conn)
    (hwf : WF reg) (h : c ∉ snapshotMembers reg room) :
    leave reg room c = reg :=
  leave_eq_self hwf.1 hwf.2.2 h

/-- Witness for C7: handle 7 is not in room "lobby" (whose only member is 5). -/
theorem claim7_leave_noop_witness :
    WF [("lobby", [5])] ∧ (7 : Conn) ∉ snapshotMembers [("lobby", [5])] "lobby" ∧
    leave [("lobby", [5])] "lobby" 7 = [("lobby", [5])] :=
  ⟨by decide, by decide, claim7_leave_noop [("lobby", [5])] "lobby" 7 (by decide) (by decide)⟩

/-- C8: on a well-formed registry, join always succeeds: the handle is in the
room's member set afterwards (the room entry having been created if absent),
joining twice yields exactly the same registry as joining once, and the handle
appears exactly once in the member set. -/
theorem claim8_join_idempotent (reg : Registry) (room : RoomId) (c : Conn) (hwf : WF reg) :
    c ∈ snapshotMembers (join reg room c) room
    ∧ join (join reg room c) room c = join reg room c
    ∧ (snapshotMembers (join reg room c) room).count c = 1 := by
  have hsnap : snapshotMembers (join reg room c) room = setInsert (lookupRoom reg room) c :=
    lookupRoom_join_self reg room c
  refine ⟨?_, ?_, ?_⟩
  · rw [hsnap]
    exact mem_setInsert_self _ _
  · have h1 : ensureRoom (join reg room c) room = join reg room c :=
      ensureRoom_eq_self (by rw [lookupRoomOpt_join_self]; rfl)
    show updateRoom (ensureRoom (join reg room c) room) room
        (setInsert (lookupRoom (ensureRoom (join reg room c) room) room) c) = join reg room c
    rw [h1, lookupRoom_join_self, setInsert_of_mem (mem_setInsert_self _ _)]
    exact updateRoom_self_eq (join_NodupKeys hwf.1 room c) (lookupRoomOpt_join_self reg room c)
  · rw [hsnap]
    exact List.count_eq_one_of_mem (setInsert_nodup (lookupRoom_nodup hwf.2.1 room) c)
      (mem_setInsert_self _ _)

/-- Witness for C8: joining 0 into the absent room "other" twice equals once. -/
theorem claim8_join_idempotent_witness :
    WF [("lobby", [5])] ∧
    join (join [("lobby", [5])] "other" 0) "other" 0 = join [("lobby", [5])] "other" 0 :=
  ⟨by decide, (claim8_join_idempotent [("lobby", [5])] "other" 0 (by decide)).2.1⟩

/-- C9: the entry point resolves the listen port from the environment with
default `8080` when unset, binds the handler at the fixed path `/ws` against
the single fresh registry instance, and a fatal listener failure exits with
the non-zero status 1. -/
theorem claim9_main_entry :
    (mainSetup "").port = "8080"
    ∧ (∀ envPort : String, envPort ≠ "" → (mainSetup envPort).port = envPort)
    ∧ (∀ envPort : String, (mainSetup envPort).wsPath = "/ws")
    ∧ (∀ envPort : String, (mainSetup envPort).registry = emptyRegistry)
    ∧ mainExit true = some 1
    ∧ (∀ n : Nat, mainExit true = some n → n ≠ 0) := by
  refine ⟨rfl, ?_, fun _ => rfl, fun _ => rfl, rfl, ?_⟩
  · intro envPort h
    unfold mainSetup resolvePort
    show (if envPort = "" then "8080" else envPort) = envPort
    rw [if_neg h]
  · intro n h
    unfold mainExit at h
    rw [if_pos rfl] at h
    injection h with h
    omega

/-- Witness for C9: a set environment port is used verbatim. -/
theorem claim9_main_entry_witness :
    ("3000" : String) ≠ "" ∧ (mainSetup "3000").port = "3000" :=
  ⟨by decide, claim9_main_entry.2.1 "3000" (by decide)⟩

/-- C10: broadcasting never mutates the registry: after the receive loop's
fan-outs over any message sequence (including fan-outs to an absent room and
fan-outs with failing peer sends), the room-membership mapping equals the one
the loop started from, and a single fan-out likewise returns it unchanged. -/
theorem claim10_broadcast_frame (reg : Registry) (room : RoomId) (c : Conn)
    (m : Message) (msgs : List Message) (fails : Conn → Bool) :
    (runLoop reg room c msgs fails).1 = reg
    ∧ (broadcastStep reg room c m fails).1 = reg :=
  ⟨runLoop_fst reg room c msgs fails, rfl⟩
